import Mathlib

/-!
Verification of the TOON response parser and suggestion reconciler of the
spellv3 repository (`src/utils/toonParser.ts`, second/most complete variant,
and the reconciliation handlers of `src/App.tsx`).

The embedding is a direct translation of the TypeScript source:
JavaScript strings become Lean `String`s (operated on through explicit,
structurally recursive helpers mirroring the JS built-ins used by the code:
`trim`, `split`, `includes`, `startsWith`, `toLowerCase`, `toUpperCase`,
`replace(/\s+/g, ' ')`, `parseInt`), JS numbers holding positions become
`Int`, optional function arguments become `Option`, and the `JSON.parse`
platform built-in (external to the repository) becomes an explicit function
parameter.  JS string lengths are modelled as Unicode-scalar counts
(`String.length`); the inputs relevant here (Bengali text, ASCII markup)
have no surrogate pairs, where the two notions agree.
-/

/-- The JS `\s` whitespace class restricted to its ASCII members (the inputs
of this protocol contain no exotic Unicode whitespace). -/
def jsWs (c : Char) : Bool :=
  c = ' ' || c = '\t' || c = '\n' || c = '\r' || c = '\x0b' || c = '\x0c'

def jsTrimList (cs : List Char) : List Char :=
  ((cs.dropWhile jsWs).reverse.dropWhile jsWs).reverse

/-- JS `String.prototype.trim`. -/
def jsTrim (s : String) : String := String.mk (jsTrimList s.toList)

/-- JS `String.prototype.toLowerCase` (ASCII part; Bengali has no case). -/
def jsToLower (s : String) : String := String.mk (s.toList.map Char.toLower)

/-- JS `String.prototype.toUpperCase` (ASCII part; Bengali has no case). -/
def jsToUpper (s : String) : String := String.mk (s.toList.map Char.toUpper)

def jsSplitCharList (sep : Char) : List Char → List (List Char)
  | [] => [[]]
  | c :: rest =>
    let r := jsSplitCharList sep rest
    if c = sep then [] :: r
    else
      match r with
      | [] => [[c]]
      | g :: gs => (c :: g) :: gs

/-- JS `String.prototype.split` with a single-character separator
(the source only ever splits on `'|'`, `','`, `'\n'`). -/
def jsSplitChar (sep : Char) (s : String) : List String :=
  (jsSplitCharList sep s.toList).map String.mk

/-- JS `String.prototype.startsWith`. -/
def jsStartsWith (s pat : String) : Bool := pat.toList.isPrefixOf s.toList

def hasInfixAux (pat : List Char) : List Char → Bool
  | [] => pat.isEmpty
  | c :: rest => pat.isPrefixOf (c :: rest) || hasInfixAux pat rest

/-- JS `String.prototype.includes` with a string argument. -/
def jsIncludes (s pat : String) : Bool := hasInfixAux pat.toList s.toList

/-- JS `String.prototype.includes` with a one-character argument. -/
def jsContainsChar (s : String) (c : Char) : Bool := s.toList.contains c

def collapseWsGo : Bool → List Char → List Char
  | _, [] => []
  | prevWs, c :: cs =>
    if jsWs c then
      if prevWs then collapseWsGo true cs else ' ' :: collapseWsGo true cs
    else c :: collapseWsGo false cs

/-- `normalizeText` of toonParser.ts:
`text.trim().toLowerCase().replace(/\s+/g, ' ')`. -/
def normalizeText (s : String) : String :=
  String.mk (collapseWsGo false (jsToLower (jsTrim s)).toList)

def decDigit (c : Char) : Option Nat :=
  if c.isDigit then some (c.toNat - 48) else none

def hexDigit (c : Char) : Option Nat :=
  if c.isDigit then some (c.toNat - 48)
  else if 'a' ≤ c ∧ c ≤ 'f' then some (c.toNat - 87)
  else if 'A' ≤ c ∧ c ≤ 'F' then some (c.toNat - 55)
  else none

def digitsVal (base : Nat) (dv : Char → Option Nat) (cs : List Char) : Option Nat :=
  let ds := cs.takeWhile (fun c => (dv c).isSome)
  if ds.isEmpty then none
  else some (ds.foldl (fun a c => a * base + (dv c).getD 0) 0)

/-- JS `parseInt(s) || 0`: skip leading whitespace, optional sign, an
auto-detected `0x` hexadecimal prefix, longest digit run; `NaN` (no digits)
collapses to `0` through `|| 0`. -/
def jsParseIntD0 (s : String) : Int :=
  let cs := s.toList.dropWhile jsWs
  let signAndRest : Int × List Char :=
    match cs with
    | '-' :: r => (-1, r)
    | '+' :: r => (1, r)
    | _ => (1, cs)
  let core : Option Nat :=
    match signAndRest.2 with
    | '0' :: x :: r =>
      if x = 'x' ∨ x = 'X' then digitsVal 16 hexDigit r
      else digitsVal 10 decDigit signAndRest.2
    | _ => digitsVal 10 decDigit signAndRest.2
  match core with
  | none => 0
  | some n => signAndRest.1 * n

def splitAtFirstCharAux (sep : Char) : List Char → Option (List Char × List Char)
  | [] => none
  | c :: rest =>
    if c = sep then some ([], rest)
    else
      match splitAtFirstCharAux sep rest with
      | none => none
      | some (pre, post) => some (c :: pre, post)

/-- The `t.indexOf(sep)` / `t.substring(0, idx)` / `t.substring(idx + 1)`
idiom of the source: `none` when `sep` does not occur, otherwise the text
before and after its first occurrence. -/
def splitAtFirstChar (sep : Char) (s : String) : Option (String × String) :=
  match splitAtFirstCharAux sep s.toList with
  | none => none
  | some (pre, post) => some (String.mk pre, String.mk post)

/-- JS string truthiness for an optional field: `undefined` and `""` are falsy. -/
def truthyS : Option String → Bool
  | some s => s ≠ ""
  | none => false

/-- JS `x || d` for an optional string field `x`. -/
def jsOrS (o : Option String) (d : String) : String :=
  match o with
  | some s => if s = "" then d else s
  | none => d

/-! ## Data model (interfaces of toonParser.ts / App.tsx) -/

structure Correction where
  wrong : String
  suggestions : List String
  position : Int
deriving DecidableEq, Repr, Inhabited

structure ToneSuggestion where
  current : String
  suggestion : String
  reason : String
  position : Int
deriving DecidableEq, Repr, Inhabited

structure StyleSuggestion where
  current : String
  suggestion : String
  type : String
  position : Int
deriving DecidableEq, Repr, Inhabited

structure StyleMixingCorrection where
  current : String
  suggestion : String
  type : String
  position : Int
deriving DecidableEq, Repr, Inhabited

structure StyleMixing where
  detected : Bool
  recommendedStyle : Option String
  reason : Option String
  corrections : Option (List StyleMixingCorrection)
deriving DecidableEq, Repr, Inhabited

structure PunctuationIssue where
  issue : String
  currentSentence : String
  correctedSentence : String
  explanation : String
  position : Int
deriving DecidableEq, Repr, Inhabited

structure EuphonyImprovement where
  current : String
  suggestions : List String
  reason : String
  position : Int
deriving DecidableEq, Repr, Inhabited

structure ContentAnalysis where
  contentType : String
  description : String
  missingElements : List String
  suggestions : List String
deriving DecidableEq, Repr, Inhabited

structure UnifiedResponse where
  spellingErrors : List Correction
  languageStyleMixing : StyleMixing
  punctuationIssues : List PunctuationIssue
  euphonyImprovements : List EuphonyImprovement
  styleConversions : List StyleSuggestion
  toneConversions : List ToneSuggestion
  contentAnalysis : Option ContentAnalysis
deriving DecidableEq, Repr, Inhabited

/-- The initial aggregate of `parseUnifiedToon`. -/
def emptyUnifiedResponse : UnifiedResponse :=
  { spellingErrors := []
    languageStyleMixing := { detected := false, recommendedStyle := none,
                             reason := none, corrections := none }
    punctuationIssues := []
    euphonyImprovements := []
    styleConversions := []
    toneConversions := []
    contentAnalysis := none }

/-! ## Deduplication and spelling validation -/

def removeDuplicatesAux {α : Type} (keyFn : α → String) :
    List String → List α → List α
  | _, [] => []
  | seen, x :: xs =>
    let key := normalizeText (keyFn x)
    if seen.contains key then removeDuplicatesAux keyFn seen xs
    else x :: removeDuplicatesAux keyFn (key :: seen) xs

/-- `removeDuplicates` of toonParser.ts: keep an entry only when the
normalized key has not been seen before. -/
def removeDuplicates {α : Type} (arr : List α) (keyFn : α → String) : List α :=
  removeDuplicatesAux keyFn [] arr

def isAllAsciiDigits (s : String) : Bool :=
  !s.toList.isEmpty && s.toList.all Char.isDigit

def isAllLatinLetters (s : String) : Bool :=
  !s.toList.isEmpty && s.toList.all Char.isAlpha

/-- The per-entry filter inside `validateSpellingErrors`. -/
def spellingEntryValid (err : Correction) : Bool :=
  let word := jsTrim err.wrong
  if word = "" || word.length < 2 then false
  else if isAllAsciiDigits word then false
  else if isAllLatinLetters word then false
  else if err.suggestions.length = 0 then false
  else true

/-- `validateSpellingErrors` of toonParser.ts: dedupe on `wrong`, truncate to
`maxAllowed`, then drop invalid entries. -/
def validateSpellingErrors (errors : List Correction) (maxAllowed : Nat) :
    List Correction :=
  let unique := removeDuplicates errors (fun item => item.wrong)
  let limited := unique.take maxAllowed
  limited.filter spellingEntryValid

/-! ## Section parsers -/

def splitFields (t : String) : List String :=
  (jsSplitChar '|' t).map jsTrim

def parseCommaList (s : String) : List String :=
  ((jsSplitChar ',' s).map jsTrim).filter (fun x => x ≠ "")

/-- One line of the SPELLING section (`parseSpellingLines` loop body). -/
def parseSpellingLine (line : String) : Option Correction :=
  let t := jsTrim line
  if t = "" || jsStartsWith t "#" || !jsContainsChar t '|' then none
  else
    let parts := splitFields t
    if 3 ≤ parts.length ∧ parts.getD 0 "" ≠ "" ∧ parts.getD 1 "" ≠ "" then
      let wrong := parts.getD 0 ""
      let suggestions := parseCommaList (parts.getD 1 "")
      let position := jsParseIntD0 (parts.getD 2 "")
      if wrong.length < 2 then none
      else if suggestions.length = 0 then none
      else some { wrong := wrong, suggestions := suggestions, position := position }
    else none

def parseSpellingLines (lines : List String) : List Correction :=
  lines.filterMap parseSpellingLine

/-- One line of the TONE section (`parseToneLines` loop body). -/
def parseToneLine (line : String) : Option ToneSuggestion :=
  let t := jsTrim line
  if t = "" || jsStartsWith t "#" || jsStartsWith t "ফরম্যাট" ||
      jsStartsWith t "উদাহরণ" || !jsContainsChar t '|' then none
  else
    let parts := splitFields t
    if 4 ≤ parts.length ∧ parts.getD 0 "" ≠ "" ∧ parts.getD 1 "" ≠ "" then
      some { current := parts.getD 0 "", suggestion := parts.getD 1 "",
             reason := parts.getD 2 "", position := jsParseIntD0 (parts.getD 3 "") }
    else none

def parseToneLines (lines : List String) : List ToneSuggestion :=
  (lines.filterMap parseToneLine).take 30

/-- One line of the STYLE section (`parseStyleLines` loop body). -/
def parseStyleLine (line : String) : Option StyleSuggestion :=
  let t := jsTrim line
  if t = "" || jsStartsWith t "#" || jsStartsWith t "ফরম্যাট" ||
      jsStartsWith t "উদাহরণ" || !jsContainsChar t '|' then none
  else
    let parts := splitFields t
    if 4 ≤ parts.length ∧ parts.getD 0 "" ≠ "" ∧ parts.getD 1 "" ≠ "" then
      some { current := parts.getD 0 "", suggestion := parts.getD 1 "",
             type := parts.getD 2 "", position := jsParseIntD0 (parts.getD 3 "") }
    else none

def parseStyleLines (lines : List String) : List StyleSuggestion :=
  (lines.filterMap parseStyleLine).take 30

/-- One line of the EUPHONY section (`parseEuphonyLines` loop body).
The source accepts a pipe line with `parts.length >= 3`; the fourth
(position) field is optional and a falsy `parts[3]` decodes to `0`. -/
def parseEuphonyLine (line : String) : Option EuphonyImprovement :=
  let t := jsTrim line
  if t = "" || jsStartsWith t "#" || jsStartsWith t "উদাহরণ" ||
      jsStartsWith t "ফরম্যাট" then none
  else if !jsContainsChar t '|' then none
  else
    let parts := splitFields t
    if 3 ≤ parts.length ∧ parts.getD 0 "" ≠ "" ∧ parts.getD 1 "" ≠ "" then
      let current := parts.getD 0 ""
      let suggestions := parseCommaList (parts.getD 1 "")
      let reason := jsOrS (some (parts.getD 2 "")) "উন্নত শব্দচয়ন"
      let p3 := parts.getD 3 ""
      let position := if p3 = "" then 0 else jsParseIntD0 p3
      if 2 ≤ current.length ∧ 0 < suggestions.length then
        some { current := current, suggestions := suggestions,
               reason := reason, position := position }
      else none
    else none

def parseEuphonyLines (lines : List String) : List EuphonyImprovement :=
  (lines.filterMap parseEuphonyLine).take 10

/-- Fold state of `parseMixingLines`. -/
structure MixAcc where
  res : StyleMixing
  corrections : List StyleMixingCorrection
  inCorrections : Bool
deriving Repr, Inhabited

def mixingStep (st : MixAcc) (line : String) : MixAcc :=
  let t := jsTrim line
  if t = "" || jsStartsWith t "#" then st
  else if jsToUpper t = "CORRECTIONS" || jsIncludes (jsToUpper t) "CORRECTIONS" then
    { st with inCorrections := true }
  else if st.inCorrections && jsContainsChar t '|' then
    let parts := splitFields t
    if 4 ≤ parts.length ∧ parts.getD 0 "" ≠ "" ∧ parts.getD 1 "" ≠ "" then
      { st with corrections := st.corrections ++
          [{ current := parts.getD 0 "", suggestion := parts.getD 1 "",
             type := parts.getD 2 "", position := jsParseIntD0 (parts.getD 3 "") }] }
    else st
  else if jsContainsChar t ':' then
    match splitAtFirstChar ':' t with
    | none => st
    | some (pre, post) =>
      let key := jsTrim (jsToLower pre)
      let val := jsTrim post
      if key = "detected" then
        { st with res := { st.res with
            detected := (jsToLower val = "true" || val = "হ্যাঁ") } }
      else if key = "style" then
        { st with res := { st.res with recommendedStyle := some val } }
      else if key = "reason" then
        { st with res := { st.res with reason := some val } }
      else st
  else st

/-- `parseMixingLines` of toonParser.ts: scalar metadata until a
CORRECTIONS marker, pipe records after it; the `corrections` field is
attached only when at least one correction accumulated. -/
def parseMixingLines (lines : List String) : StyleMixing :=
  let fin := lines.foldl mixingStep
    { res := { detected := false, recommendedStyle := none, reason := none,
               corrections := none },
      corrections := [], inCorrections := false }
  if 0 < fin.corrections.length then
    { fin.res with corrections := some fin.corrections }
  else fin.res

/-- Record under construction in `parsePunctuationLines`. -/
structure PunctAcc where
  issue : Option String := none
  currentSentence : Option String := none
  correctedSentence : Option String := none
  explanation : Option String := none
  position : Option Int := none
deriving DecidableEq, Repr, Inhabited

/-- `t === '---' || t.match(/^-{3,}$/)` of the source. -/
def isDashSeparator (t : String) : Bool :=
  t = "---" || (3 ≤ t.toList.length && t.toList.all (fun c => c = '-'))

/-- `pushCurrent` of `parsePunctuationLines`: flush the accumulator when one
of the two identity fields is truthy. -/
def punctFlush (acc : List PunctuationIssue × PunctAcc) :
    List PunctuationIssue × PunctAcc :=
  let cur := acc.2
  if truthyS cur.issue || truthyS cur.currentSentence then
    (acc.1 ++
      [{ issue := jsOrS cur.issue "বিরাম চিহ্ন সমস্যা",
         currentSentence := jsOrS cur.currentSentence "",
         correctedSentence := jsOrS cur.correctedSentence
             (jsOrS cur.currentSentence ""),
         explanation := jsOrS cur.explanation "",
         position := cur.position.getD 0 }], {})
  else acc

def punctStep (acc : List PunctuationIssue × PunctAcc) (line : String) :
    List PunctuationIssue × PunctAcc :=
  let t := jsTrim line
  if isDashSeparator t then punctFlush acc
  else if t = "" || jsStartsWith t "#" then acc
  else
    match splitAtFirstChar ':' t with
    | none => acc
    | some (pre, post) =>
      if pre = "" then acc
      else
        let key := jsTrim (jsToLower pre)
        let val := jsTrim post
        let cur := acc.2
        if key = "issue" || key = "সমস্যা" then
          (acc.1, { cur with issue := some val })
        else if key = "cur" || key = "current" || key = "বর্তমান" ||
            key = "currentsentence" then
          (acc.1, { cur with currentSentence := some val })
        else if key = "fix" || key = "fixed" || key = "corrected" ||
            key = "সংশোধিত" || key = "correctedsentence" then
          (acc.1, { cur with correctedSentence := some val })
        else if key = "exp" || key = "explanation" || key = "ব্যাখ্যা" then
          (acc.1, { cur with explanation := some val })
        else if key = "pos" || key = "position" then
          (acc.1, { cur with position := some (jsParseIntD0 val) })
        else acc

/-- The uncapped output of `parsePunctuationLines` (before `slice(0, 15)`). -/
def punctEmitted (lines : List String) : List PunctuationIssue :=
  (punctFlush (lines.foldl punctStep ([], {}))).1

def parsePunctuationLines (lines : List String) : List PunctuationIssue :=
  (punctEmitted lines).take 15

def contentStep (acc : ContentAnalysis) (line : String) : ContentAnalysis :=
  let t := jsTrim line
  if t = "" || jsStartsWith t "#" || jsStartsWith t "@" then acc
  else
    match splitAtFirstChar ':' t with
    | none => acc
    | some (pre, post) =>
      if pre = "" then acc
      else
        let key := jsTrim (jsToLower pre)
        let val := jsTrim post
        if key = "type" || key = "contenttype" || key = "ধরন" || key = "টাইপ" then
          { acc with contentType := val }
        else if key = "desc" || key = "description" || key = "বর্ণনা" then
          { acc with description := val }
        else if key = "missing" || key = "missingelements" || key = "অনুপস্থিত" then
          { acc with missingElements := (parseCommaList val).take 5 }
        else if key = "tips" || key = "suggestions" || key = "পরামর্শ" ||
            key = "সাজেশন" then
          { acc with suggestions := (parseCommaList val).take 5 }
        else acc

/-- `parseContentLines` of toonParser.ts. -/
def parseContentLines (lines : List String) : Option ContentAnalysis :=
  let result := lines.foldl contentStep
    { contentType := "", description := "", missingElements := [], suggestions := [] }
  if result.contentType ≠ "" ∨ result.description ≠ "" ∨
      0 < result.missingElements.length ∨ 0 < result.suggestions.length then
    some result
  else none

/-! ## Unified parser -/

def splitAtLineStartAtGo : List Char → List Char → Bool → List String
  | [], cur, _ => [String.mk cur.reverse]
  | c :: rest, cur, atStart =>
    if c = '@' ∧ atStart then
      String.mk cur.reverse :: splitAtLineStartAtGo rest [] false
    else splitAtLineStartAtGo rest (c :: cur) (c = '\n')

/-- `raw.split(/^@/m)`: split at every `@` standing at the start of a line. -/
def splitAtLineStartAt (raw : String) : List String :=
  splitAtLineStartAtGo raw.toList [] true

/-- The section dispatch (`switch (header)`) of `parseUnifiedToon`. -/
def processSection (acc : UnifiedResponse) (sec : String) : UnifiedResponse :=
  let lines := jsSplitChar '\n' (jsTrim sec)
  let header := jsToUpper (jsTrim (lines.headD ""))
  let content := lines.tail
  if header = "SPELLING" then { acc with spellingErrors := parseSpellingLines content }
  else if header = "MIXING" then
    { acc with languageStyleMixing := parseMixingLines content }
  else if header = "PUNCTUATION" then
    { acc with punctuationIssues := parsePunctuationLines content }
  else if header = "EUPHONY" then
    { acc with euphonyImprovements := parseEuphonyLines content }
  else if header = "STYLE" then
    { acc with styleConversions := parseStyleLines content }
  else if header = "TONE" then
    { acc with toneConversions := parseToneLines content }
  else if header = "CONTENT" then
    { acc with contentAnalysis := parseContentLines content }
  else acc

/-- `wordCount ? Math.min(50, Math.ceil(wordCount * 0.5)) : 50` — note that a
supplied word count of `0` is falsy in JS and selects the flat 50. -/
def maxErrorsFor (wordCount : Option Nat) : Nat :=
  match wordCount with
  | some wc => if wc = 0 then 50 else min 50 ((wc + 1) / 2)
  | none => 50

/-- The section loop of `parseUnifiedToon`: split on line-initial `@`, drop
whitespace-only parts, dispatch each section to its parser. -/
def toonFold (raw : String) : UnifiedResponse :=
  ((splitAtLineStartAt raw).filter (fun s => jsTrim s ≠ "")).foldl
    processSection emptyUnifiedResponse

/-- `parseUnifiedToon` of toonParser.ts: tokenize into `@`-sections, dispatch
each to its parser, then validate/deduplicate. -/
def parseUnifiedToon (raw : String) (wordCount : Option Nat) : UnifiedResponse :=
  let result := toonFold raw
  let maxErrors := maxErrorsFor wordCount
  let mixing :=
    match result.languageStyleMixing.corrections with
    | some l => { result.languageStyleMixing with
        corrections := some (removeDuplicates l (fun item => item.current)) }
    | none => result.languageStyleMixing
  { result with
    spellingErrors := validateSpellingErrors result.spellingErrors maxErrors
    toneConversions := removeDuplicates result.toneConversions (fun item => item.current)
    styleConversions := removeDuplicates result.styleConversions (fun item => item.current)
    euphonyImprovements :=
      removeDuplicates result.euphonyImprovements (fun item => item.current)
    languageStyleMixing := mixing }

/-! ## Format detector (`parseAIResponse`) -/

/-- Shape of a successfully `JSON.parse`d legacy payload, restricted to the
seven top-level keys the fallback path reads; an absent or falsy key is
`none`. -/
structure JsonShape where
  spellingErrors : Option (List Correction) := none
  languageStyleMixing : Option StyleMixing := none
  punctuationIssues : Option (List PunctuationIssue) := none
  euphonyImprovements : Option (List EuphonyImprovement) := none
  styleConversions : Option (List StyleSuggestion) := none
  toneConversions : Option (List ToneSuggestion) := none
  contentAnalysis : Option ContentAnalysis := none
deriving Repr, Inhabited

/-- `cleaned.replace(/^```(?:json)?\n?/, '')` under the guard that `cleaned`
starts with three backticks. -/
def removeLeadingFence (s : String) : String :=
  let cs := s.toList.drop 3
  let cs :=
    if ['j', 's', 'o', 'n'].isPrefixOf cs then cs.drop 4 else cs
  let cs :=
    match cs with
    | '\n' :: r => r
    | _ => cs
  String.mk cs

/-- `cleaned.replace(/\n?```$/, '')`: the only possible matches of the
anchored pattern end at the end of the string, so this removes a trailing
fence together with at most one newline before it. -/
def removeTrailingFence (s : String) : String :=
  let rev := s.toList.reverse
  match rev with
  | '`' :: '`' :: '`' :: '\n' :: r => String.mk r.reverse
  | '`' :: '`' :: '`' :: r => String.mk r.reverse
  | _ => s

/-- The code-fence stripping step of the JSON fallback. -/
def stripFence (s : String) : String :=
  if jsStartsWith s "```" then removeTrailingFence (removeLeadingFence s) else s

def toonHeaderTokens : List String :=
  ["@SPELLING", "@MIXING", "@PUNCTUATION", "@STYLE", "@TONE", "@EUPHONY", "@CONTENT"]

/-- The TOON-format detection condition of `parseAIResponse`. -/
def hasToonHeader (s : String) : Bool :=
  toonHeaderTokens.any (fun tok => jsIncludes s tok)

/-- `parseAIResponse` of toonParser.ts.  `JSON.parse` is a platform built-in
external to the repository, so it enters as the explicit parameter
`jsonParse`; `jsonParse c = none` models "`JSON.parse(c)` throws". -/
def parseAIResponse (jsonParse : String → Option JsonShape) (raw : String)
    (wordCount : Option Nat) : Option UnifiedResponse :=
  let trimmed := jsTrim raw
  if hasToonHeader trimmed then some (parseUnifiedToon trimmed wordCount)
  else
    let cleaned := stripFence trimmed
    match jsonParse cleaned with
    | none => none
    | some json =>
      let result : UnifiedResponse :=
        { spellingErrors := json.spellingErrors.getD []
          languageStyleMixing := json.languageStyleMixing.getD
            { detected := false, recommendedStyle := none, reason := none,
              corrections := none }
          punctuationIssues := json.punctuationIssues.getD []
          euphonyImprovements := json.euphonyImprovements.getD []
          styleConversions := json.styleConversions.getD []
          toneConversions := json.toneConversions.getD []
          contentAnalysis := json.contentAnalysis }
      some { result with
        spellingErrors :=
          validateSpellingErrors result.spellingErrors (maxErrorsFor wordCount) }

/-! ## Suggestion reconciler (App.tsx) -/

/-- The suggestion-list state of the App component. -/
structure AppState where
  corrections : List Correction
  toneSuggestions : List ToneSuggestion
  styleSuggestions : List StyleSuggestion
  languageStyleMixing : Option StyleMixing
  punctuationIssues : List PunctuationIssue
  euphonyImprovements : List EuphonyImprovement
deriving DecidableEq, Repr, Inhabited

/-- Modelled from the spec: the `normalize` helper imported by App.tsx from
`src/utils/normalize` is not among the provided sources.  Per the spec,
accept/dismiss matching "uses the same normalization as deduplication
(case-insensitive, whitespace-collapsed)", i.e. the `normalizeText` of the
parser. -/
def appNormalize (s : String) : String := normalizeText s

/-- The `setLanguageStyleMixing(prev => ...)` updater that appears verbatim
inside both `handleReplace` and `dismissSuggestion`: filter the corrections
by the normalized target, collapse the whole report to `null` when the
filtered list is empty, and leave a report without corrections untouched. -/
def mixingRemove (target : String) (o : Option StyleMixing) : Option StyleMixing :=
  match o with
  | none => none
  | some m =>
    match m.corrections with
    | none => some m
    | some l =>
      let filtered := l.filter (fun c => appNormalize c.current ≠ target)
      if 0 < filtered.length then some { m with corrections := some filtered }
      else none

/-- `handleReplace` of App.tsx; `success` is the Boolean outcome of the
external `replaceInWord` document-adapter call. -/
def handleReplace (success : Bool) (oldText : String) (st : AppState) : AppState :=
  if success then
    let target := appNormalize (jsTrim oldText)
    { corrections := st.corrections.filter (fun c => appNormalize c.wrong ≠ target)
      toneSuggestions :=
        st.toneSuggestions.filter (fun t => appNormalize t.current ≠ target)
      styleSuggestions :=
        st.styleSuggestions.filter (fun s => appNormalize s.current ≠ target)
      euphonyImprovements :=
        st.euphonyImprovements.filter (fun e => appNormalize e.current ≠ target)
      punctuationIssues :=
        st.punctuationIssues.filter (fun p => appNormalize p.currentSentence ≠ target)
      languageStyleMixing := mixingRemove target st.languageStyleMixing }
  else st

inductive SuggestionKind where
  | spelling | tone | style | mixing | punct | euphony
deriving DecidableEq, Repr

/-- `dismissSuggestion` of App.tsx. -/
def dismissSuggestion (kind : SuggestionKind) (textToDismiss : String)
    (st : AppState) : AppState :=
  let target := appNormalize textToDismiss
  match kind with
  | .spelling =>
    { st with corrections := st.corrections.filter (fun c => appNormalize c.wrong ≠ target) }
  | .tone =>
    { st with toneSuggestions :=
        st.toneSuggestions.filter (fun t => appNormalize t.current ≠ target) }
  | .style =>
    { st with styleSuggestions :=
        st.styleSuggestions.filter (fun s => appNormalize s.current ≠ target) }
  | .mixing =>
    { st with languageStyleMixing := mixingRemove target st.languageStyleMixing }
  | .punct =>
    { st with punctuationIssues :=
        st.punctuationIssues.filter (fun p => appNormalize p.currentSentence ≠ target) }
  | .euphony =>
    { st with euphonyImprovements :=
        st.euphonyImprovements.filter (fun e => appNormalize e.current ≠ target) }

/-! ## General lemmas about the deduplication pass -/

theorem removeDuplicatesAux_sublist {α : Type} (kf : α → String) :
    ∀ (l : List α) (seen : List String), (removeDuplicatesAux kf seen l).Sublist l := by
  intro l
  induction l with
  | nil => intro seen; simp [removeDuplicatesAux]
  | cons a t ih =>
    intro seen
    rw [removeDuplicatesAux]
    by_cases hc : seen.contains (normalizeText (kf a)) = true
    · simp only [hc, if_true]
      exact (ih seen).cons a
    · simp only [hc, if_false]
      exact (ih _).cons₂ a

theorem mem_removeDuplicatesAux {α : Type} (kf : α → String) :
    ∀ (l : List α) (seen : List String) (x : α),
      x ∈ removeDuplicatesAux kf seen l →
      normalizeText (kf x) ∉ seen ∧
        ∃ pre post, l = pre ++ x :: post ∧
          ∀ z ∈ pre, normalizeText (kf z) ≠ normalizeText (kf x) := by
  intro l
  induction l with
  | nil => intro seen x hx; simp [removeDuplicatesAux] at hx
  | cons a t ih =>
    intro seen x hx
    rw [removeDuplicatesAux] at hx
    by_cases hc : seen.contains (normalizeText (kf a)) = true
    · simp only [hc, if_true] at hx
      obtain ⟨hnot, pre, post, hsplit, hpre⟩ := ih seen x hx
      refine ⟨hnot, a :: pre, post, by rw [hsplit]; rfl, ?_⟩
      intro z hz
      rcases List.mem_cons.mp hz with rfl | hz'
      · intro heq
        exact hnot (heq ▸ (by simpa using hc))
      · exact hpre z hz'
    · simp only [hc, if_false] at hx
      rcases List.mem_cons.mp hx with rfl | hx'
      · exact ⟨by simpa using hc, [], t, rfl, by simp⟩
      · obtain ⟨hnot, pre, post, hsplit, hpre⟩ := ih _ x hx'
        have hxa : normalizeText (kf x) ≠ normalizeText (kf a) := by
          intro heq
          exact hnot (by simp [heq])
        refine ⟨fun hmem => hnot (by simp [hmem]), a :: pre, post,
          by rw [hsplit]; rfl, ?_⟩
        intro z hz
        rcases List.mem_cons.mp hz with rfl | hz'
        · exact fun heq => hxa heq.symm
        · exact hpre z hz'

theorem pairwise_removeDuplicatesAux {α : Type} (kf : α → String) :
    ∀ (l : List α) (seen : List String),
      (removeDuplicatesAux kf seen l).Pairwise
        (fun a b => normalizeText (kf a) ≠ normalizeText (kf b)) := by
  intro l
  induction l with
  | nil => intro seen; simp [removeDuplicatesAux]
  | cons a t ih =>
    intro seen
    rw [removeDuplicatesAux]
    by_cases hc : seen.contains (normalizeText (kf a)) = true
    · rw [if_pos hc]; exact ih seen
    · rw [if_neg hc]
      rw [List.pairwise_cons]
      refine ⟨?_, ih _⟩
      intro b hb heq
      have := (mem_removeDuplicatesAux kf t _ b hb).1
      exact this (by simp [heq])

theorem removeDuplicatesAux_complete {α : Type} (kf : α → String) :
    ∀ (l : List α) (seen : List String) (x : α), x ∈ l →
      normalizeText (kf x) ∈ seen ∨
        ∃ y ∈ removeDuplicatesAux kf seen l,
          normalizeText (kf y) = normalizeText (kf x) := by
  intro l
  induction l with
  | nil => intro seen x hx; simp at hx
  | cons a t ih =>
    intro seen x hx
    rw [removeDuplicatesAux]
    by_cases hc : seen.contains (normalizeText (kf a)) = true
    · simp only [hc, if_true]
      rcases List.mem_cons.mp hx with rfl | hx'
      · exact Or.inl (by simpa using hc)
      · exact ih seen x hx'
    · simp only [hc, if_false]
      rcases List.mem_cons.mp hx with rfl | hx'
      · exact Or.inr ⟨x, List.mem_cons_self x _, rfl⟩
      · rcases ih (normalizeText (kf a) :: seen) x hx' with hmem | ⟨y, hy, hkey⟩
        · rcases List.mem_cons.mp hmem with heq | hmem'
          · exact Or.inr ⟨a, List.mem_cons_self a _, heq.symm⟩
          · exact Or.inl hmem'
        · exact Or.inr ⟨y, List.mem_cons_of_mem a hy, hkey⟩

theorem removeDuplicates_sublist {α : Type} (arr : List α) (kf : α → String) :
    (removeDuplicates arr kf).Sublist arr :=
  removeDuplicatesAux_sublist kf arr []

theorem length_removeDuplicates_le {α : Type} (arr : List α) (kf : α → String) :
    (removeDuplicates arr kf).length ≤ arr.length :=
  (removeDuplicates_sublist arr kf).length_le

theorem pairwise_removeDuplicates {α : Type} (arr : List α) (kf : α → String) :
    (removeDuplicates arr kf).Pairwise
      (fun a b => normalizeText (kf a) ≠ normalizeText (kf b)) :=
  pairwise_removeDuplicatesAux kf arr []

theorem mem_removeDuplicates_first {α : Type} (arr : List α) (kf : α → String)
    (x : α) (hx : x ∈ removeDuplicates arr kf) :
    ∃ pre post, arr = pre ++ x :: post ∧
      ∀ z ∈ pre, normalizeText (kf z) ≠ normalizeText (kf x) :=
  (mem_removeDuplicatesAux kf arr [] x hx).2

theorem removeDuplicates_complete {α : Type} (arr : List α) (kf : α → String)
    (x : α) (hx : x ∈ arr) :
    ∃ y ∈ removeDuplicates arr kf,
      normalizeText (kf y) = normalizeText (kf x) := by
  rcases removeDuplicatesAux_complete kf arr [] x hx with h | h
  · simp at h
  · exact h

theorem removeDuplicates_ne_nil {α : Type} (a : α) (t : List α) (kf : α → String) :
    removeDuplicates (a :: t) kf ≠ [] := by
  simp [removeDuplicates, removeDuplicatesAux]

/-! ## Lemmas about validation and section parser bounds -/

theorem length_validateSpellingErrors_le (errors : List Correction) (m : Nat) :
    (validateSpellingErrors errors m).length ≤ m := by
  refine le_trans (List.length_filter_le _ _) ?_
  simp [List.length_take]

theorem validateSpellingErrors_sublist (errors : List Correction) (m : Nat) :
    (validateSpellingErrors errors m).Sublist
      (removeDuplicates errors (fun item => item.wrong)) :=
  (List.filter_sublist _).trans (List.take_sublist _ _)

theorem mem_validateSpellingErrors (errors : List Correction) (m : Nat)
    (e : Correction) (h : e ∈ validateSpellingErrors errors m) :
    spellingEntryValid e = true :=
  (List.mem_filter.mp h).2

theorem length_parseToneLines_le (ls : List String) :
    (parseToneLines ls).length ≤ 30 := by
  simp [parseToneLines, List.length_take]

theorem length_parseStyleLines_le (ls : List String) :
    (parseStyleLines ls).length ≤ 30 := by
  simp [parseStyleLines, List.length_take]

theorem length_parseEuphonyLines_le (ls : List String) :
    (parseEuphonyLines ls).length ≤ 10 := by
  simp [parseEuphonyLines, List.length_take]

theorem length_parsePunctuationLines_le (ls : List String) :
    (parsePunctuationLines ls).length ≤ 15 := by
  simp [parsePunctuationLines, List.length_take]

/-! ## The section dispatch loop -/

theorem processSection_fields (acc : UnifiedResponse) (sec : String) :
    ((processSection acc sec).punctuationIssues = acc.punctuationIssues ∨
      ∃ ls, (processSection acc sec).punctuationIssues = parsePunctuationLines ls) ∧
    ((processSection acc sec).toneConversions = acc.toneConversions ∨
      ∃ ls, (processSection acc sec).toneConversions = parseToneLines ls) ∧
    ((processSection acc sec).styleConversions = acc.styleConversions ∨
      ∃ ls, (processSection acc sec).styleConversions = parseStyleLines ls) ∧
    ((processSection acc sec).euphonyImprovements = acc.euphonyImprovements ∨
      ∃ ls, (processSection acc sec).euphonyImprovements = parseEuphonyLines ls) ∧
    ((processSection acc sec).languageStyleMixing = acc.languageStyleMixing ∨
      ∃ ls, (processSection acc sec).languageStyleMixing = parseMixingLines ls) := by
  simp only [processSection]
  split_ifs <;>
    refine ⟨?_, ?_, ?_, ?_, ?_⟩ <;>
    first
      | exact Or.inl rfl
      | exact Or.inr ⟨_, rfl⟩

theorem foldl_processSection_inv (P : UnifiedResponse → Prop)
    (hstep : ∀ acc sec, P acc → P (processSection acc sec)) :
    ∀ (sections : List String) (acc : UnifiedResponse),
      P acc → P (sections.foldl processSection acc) := by
  intro sections
  induction sections with
  | nil => intro acc h; exact h
  | cons s t ih => intro acc h; exact ih _ (hstep _ _ h)

theorem toonFold_inv (P : UnifiedResponse → Prop)
    (hinit : P emptyUnifiedResponse)
    (hstep : ∀ acc sec, P acc → P (processSection acc sec)) (raw : String) :
    P (toonFold raw) :=
  foldl_processSection_inv P hstep _ _ hinit

theorem parseUnifiedToon_spellingErrors (raw : String) (owc : Option Nat) :
    (parseUnifiedToon raw owc).spellingErrors =
      validateSpellingErrors (toonFold raw).spellingErrors (maxErrorsFor owc) := rfl

theorem parseUnifiedToon_toneConversions (raw : String) (owc : Option Nat) :
    (parseUnifiedToon raw owc).toneConversions =
      removeDuplicates (toonFold raw).toneConversions (fun item => item.current) := rfl

theorem parseUnifiedToon_styleConversions (raw : String) (owc : Option Nat) :
    (parseUnifiedToon raw owc).styleConversions =
      removeDuplicates (toonFold raw).styleConversions (fun item => item.current) := rfl

theorem parseUnifiedToon_euphonyImprovements (raw : String) (owc : Option Nat) :
    (parseUnifiedToon raw owc).euphonyImprovements =
      removeDuplicates (toonFold raw).euphonyImprovements (fun item => item.current) := rfl

theorem parseUnifiedToon_punctuationIssues (raw : String) (owc : Option Nat) :
    (parseUnifiedToon raw owc).punctuationIssues =
      (toonFold raw).punctuationIssues := rfl

theorem parseUnifiedToon_mixing (raw : String) (owc : Option Nat) :
    (parseUnifiedToon raw owc).languageStyleMixing =
      match (toonFold raw).languageStyleMixing.corrections with
      | some l => { (toonFold raw).languageStyleMixing with
          corrections := some (removeDuplicates l (fun item => item.current)) }
      | none => (toonFold raw).languageStyleMixing := rfl

/-! ## Mixing-report invariants -/

theorem mixingStep_res_corrections (st : MixAcc) (line : String) :
    (mixingStep st line).res.corrections = st.res.corrections := by
  simp only [mixingStep]
  repeat' split
  all_goals rfl

theorem foldl_mixingStep_res_corrections (lines : List String) :
    ∀ st : MixAcc,
      ((lines.foldl mixingStep st).res.corrections = st.res.corrections) := by
  induction lines with
  | nil => intro st; rfl
  | cons a t ih =>
    intro st
    rw [List.foldl_cons, ih, mixingStep_res_corrections]

theorem parseMixingLines_corrections_ne_nil (ls : List String)
    (l : List StyleMixingCorrection)
    (h : (parseMixingLines ls).corrections = some l) : l ≠ [] := by
  simp only [parseMixingLines] at h
  split at h
  · next hlen =>
    simp only [StyleMixing.corrections] at h
    injection h with h
    intro hnil
    rw [h, hnil] at hlen
    simp at hlen
  · next hlen =>
    rw [foldl_mixingStep_res_corrections] at h
    simp at h

theorem toonFold_mixing_corrections_ne_nil (raw : String)
    (l : List StyleMixingCorrection)
    (h : (toonFold raw).languageStyleMixing.corrections = some l) : l ≠ [] := by
  refine toonFold_inv
    (fun r => ∀ l, r.languageStyleMixing.corrections = some l → l ≠ []) ?_ ?_ raw l h
  · intro l hl
    simp [emptyUnifiedResponse] at hl
  · intro acc sec hacc l hl
    rcases (processSection_fields acc sec).2.2.2.2 with he | ⟨ls, he⟩
    · exact hacc l (he ▸ hl)
    · rw [he] at hl
      exact parseMixingLines_corrections_ne_nil ls l hl

theorem parseUnifiedToon_mixing_corrections_ne_nil (raw : String)
    (owc : Option Nat) (l : List StyleMixingCorrection)
    (h : (parseUnifiedToon raw owc).languageStyleMixing.corrections = some l) :
    l ≠ [] := by
  rw [parseUnifiedToon_mixing] at h
  rcases hc : (toonFold raw).languageStyleMixing.corrections with _ | l'
  · rw [hc] at h
    simp only at h
    rw [hc] at h
    exact absurd h (by simp)
  · rw [hc] at h
    simp only [StyleMixing.corrections] at h
    injection h with h
    have hne := toonFold_mixing_corrections_ne_nil raw l' hc
    cases l' with
    | nil => exact absurd rfl hne
    | cons a t =>
      rw [← h]
      exact removeDuplicates_ne_nil a t _

/-! ## Lemmas for empty and comment-only input -/

theorem validateSpellingErrors_nil (m : Nat) :
    validateSpellingErrors [] m = [] := by
  simp [validateSpellingErrors, removeDuplicates, removeDuplicatesAux]

theorem parseUnifiedToon_empty (owc : Option Nat) :
    parseUnifiedToon "" owc = emptyUnifiedResponse := by
  have h : toonFold "" = emptyUnifiedResponse := rfl
  show { emptyUnifiedResponse with
      spellingErrors := validateSpellingErrors (toonFold "").spellingErrors (maxErrorsFor owc)
      toneConversions := removeDuplicates (toonFold "").toneConversions (fun item => item.current)
      styleConversions := removeDuplicates (toonFold "").styleConversions (fun item => item.current)
      euphonyImprovements := removeDuplicates (toonFold "").euphonyImprovements (fun item => item.current) } =
    emptyUnifiedResponse
  rw [h]
  simp [emptyUnifiedResponse, validateSpellingErrors_nil, removeDuplicates,
    removeDuplicatesAux]

theorem jsStartsWith_hash_toList (t : String) (h : jsStartsWith t "#" = true) :
    ∃ rest, t.toList = '#' :: rest := by
  unfold jsStartsWith at h
  cases ht : t.toList with
  | nil =>
    rw [ht] at h
    simp [show ("#" : String).toList = ['#'] from rfl, List.isPrefixOf] at h
  | cons c rest =>
    rw [ht] at h
    simp only [show ("#" : String).toList = ['#'] from rfl, List.isPrefixOf,
      Bool.and_eq_true, beq_iff_eq] at h
    cases h.1
    exact ⟨rest, rfl⟩

theorem isDashSeparator_eq_false_of_hash (t : String)
    (h : jsStartsWith t "#" = true) : isDashSeparator t = false := by
  obtain ⟨rest, ht⟩ := jsStartsWith_hash_toList t h
  have hne : t ≠ "---" := by
    intro he
    rw [he] at ht
    have h3 : ("---" : String).toList = ['-', '-', '-'] := rfl
    rw [h3] at ht
    simp at ht
  have ht' : t.data = '#' :: rest := ht
  simp only [isDashSeparator, ht, hne]
  simp [ht']

theorem parseSpellingLine_skip (l : String)
    (h : jsTrim l = "" ∨ jsStartsWith (jsTrim l) "#" = true) :
    parseSpellingLine l = none := by
  rcases h with h | h <;> simp [parseSpellingLine, h]

theorem parseToneLine_skip (l : String)
    (h : jsTrim l = "" ∨ jsStartsWith (jsTrim l) "#" = true) :
    parseToneLine l = none := by
  rcases h with h | h <;> simp [parseToneLine, h]

theorem parseStyleLine_skip (l : String)
    (h : jsTrim l = "" ∨ jsStartsWith (jsTrim l) "#" = true) :
    parseStyleLine l = none := by
  rcases h with h | h <;> simp [parseStyleLine, h]

theorem parseEuphonyLine_skip (l : String)
    (h : jsTrim l = "" ∨ jsStartsWith (jsTrim l) "#" = true) :
    parseEuphonyLine l = none := by
  rcases h with h | h <;> simp [parseEuphonyLine, h]

theorem punctStep_skip (acc : List PunctuationIssue × PunctAcc) (l : String)
    (h : jsTrim l = "" ∨ jsStartsWith (jsTrim l) "#" = true) :
    punctStep acc l = acc := by
  rcases h with h | h
  · simp [punctStep, h, isDashSeparator]
  · have hd := isDashSeparator_eq_false_of_hash _ h
    simp [punctStep, h, hd]

theorem mixingStep_skip (st : MixAcc) (l : String)
    (h : jsTrim l = "" ∨ jsStartsWith (jsTrim l) "#" = true) :
    mixingStep st l = st := by
  rcases h with h | h <;> simp [mixingStep, h]

theorem contentStep_skip (acc : ContentAnalysis) (l : String)
    (h : jsTrim l = "" ∨ jsStartsWith (jsTrim l) "#" = true) :
    contentStep acc l = acc := by
  rcases h with h | h <;> simp [contentStep, h]

theorem foldl_skip {σ α : Type} (f : σ → α → σ) :
    ∀ (ls : List α) (init : σ), (∀ l ∈ ls, ∀ acc, f acc l = acc) →
      ls.foldl f init = init := by
  intro ls
  induction ls with
  | nil => intro init _; rfl
  | cons a t ih =>
    intro init h
    rw [List.foldl_cons, h a (List.mem_cons_self a t)]
    exact ih init (fun l hl acc => h l (List.mem_cons_of_mem a hl) acc)

theorem parsePunctuationLines_skip (ls : List String)
    (h : ∀ l ∈ ls, jsTrim l = "" ∨ jsStartsWith (jsTrim l) "#" = true) :
    parsePunctuationLines ls = [] := by
  have hfold : ls.foldl punctStep ([], {}) =
      (([], {}) : List PunctuationIssue × PunctAcc) :=
    foldl_skip punctStep ls ([], {}) (fun l hl acc => punctStep_skip acc l (h l hl))
  simp [parsePunctuationLines, punctEmitted, hfold, punctFlush, truthyS]

theorem parseMixingLines_skip (ls : List String)
    (h : ∀ l ∈ ls, jsTrim l = "" ∨ jsStartsWith (jsTrim l) "#" = true) :
    parseMixingLines ls =
      { detected := false, recommendedStyle := none, reason := none,
        corrections := none } := by
  have hfold := foldl_skip mixingStep ls
    { res := { detected := false, recommendedStyle := none, reason := none,
               corrections := none },
      corrections := [], inCorrections := false }
    (fun l hl st => mixingStep_skip st l (h l hl))
  simp [parseMixingLines, hfold]

theorem parseContentLines_skip (ls : List String)
    (h : ∀ l ∈ ls, jsTrim l = "" ∨ jsStartsWith (jsTrim l) "#" = true) :
    parseContentLines ls = none := by
  have hfold := foldl_skip contentStep ls
    { contentType := "", description := "", missingElements := [], suggestions := [] }
    (fun l hl acc => contentStep_skip acc l (h l hl))
  simp [parseContentLines, hfold]

/-! ## Claim theorems -/

/-- C10: the aggregate returned by `parseUnifiedToon` obeys fixed per-category
truncation caps — at most 15 punctuation issues, 10 euphony improvements,
30 style conversions and 30 tone conversions — and each section parser keeps
the earliest-emitted entries (a `take` of the emission order). -/
theorem toon_category_caps (raw : String) (owc : Option Nat) (ls : List String) :
    (parseUnifiedToon raw owc).punctuationIssues.length ≤ 15 ∧
    (parseUnifiedToon raw owc).euphonyImprovements.length ≤ 10 ∧
    (parseUnifiedToon raw owc).styleConversions.length ≤ 30 ∧
    (parseUnifiedToon raw owc).toneConversions.length ≤ 30 ∧
    parsePunctuationLines ls = (punctEmitted ls).take 15 ∧
    parseEuphonyLines ls = (ls.filterMap parseEuphonyLine).take 10 ∧
    parseStyleLines ls = (ls.filterMap parseStyleLine).take 30 ∧
    parseToneLines ls = (ls.filterMap parseToneLine).take 30 := by
  refine ⟨?_, ?_, ?_, ?_, rfl, rfl, rfl, rfl⟩
  · rw [parseUnifiedToon_punctuationIssues]
    refine toonFold_inv (fun r => r.punctuationIssues.length ≤ 15)
      (by simp [emptyUnifiedResponse]) ?_ raw
    intro acc sec hacc
    rcases (processSection_fields acc sec).1 with he | ⟨ls', he⟩
    · rw [he]; exact hacc
    · rw [he]; exact length_parsePunctuationLines_le ls'
  · rw [parseUnifiedToon_euphonyImprovements]
    refine le_trans (length_removeDuplicates_le _ _) ?_
    refine toonFold_inv (fun r => r.euphonyImprovements.length ≤ 10)
      (by simp [emptyUnifiedResponse]) ?_ raw
    intro acc sec hacc
    rcases (processSection_fields acc sec).2.2.2.1 with he | ⟨ls', he⟩
    · rw [he]; exact hacc
    · rw [he]; exact length_parseEuphonyLines_le ls'
  · rw [parseUnifiedToon_styleConversions]
    refine le_trans (length_removeDuplicates_le _ _) ?_
    refine toonFold_inv (fun r => r.styleConversions.length ≤ 30)
      (by simp [emptyUnifiedResponse]) ?_ raw
    intro acc sec hacc
    rcases (processSection_fields acc sec).2.2.1 with he | ⟨ls', he⟩
    · rw [he]; exact hacc
    · rw [he]; exact length_parseStyleLines_le ls'
  · rw [parseUnifiedToon_toneConversions]
    refine le_trans (length_removeDuplicates_le _ _) ?_
    refine toonFold_inv (fun r => r.toneConversions.length ≤ 30)
      (by simp [emptyUnifiedResponse]) ?_ raw
    intro acc sec hacc
    rcases (processSection_fields acc sec).2.1 with he | ⟨ls', he⟩
    · rw [he]; exact hacc
    · rw [he]; exact length_parseToneLines_le ls'

/-- C3: `parseAIResponse` returns `null` exactly when the trimmed input
contains none of the seven recognized `@`-header tokens and the external
`JSON.parse` of the fence-stripped input fails; in every other case it
returns a non-null aggregate. -/
theorem toon_null_iff_unparseable (jp : String → Option JsonShape)
    (raw : String) (owc : Option Nat) :
    parseAIResponse jp raw owc = none ↔
      (hasToonHeader (jsTrim raw) = false ∧
       jp (stripFence (jsTrim raw)) = none) := by
  simp only [parseAIResponse]
  by_cases hh : hasToonHeader (jsTrim raw) = true
  · rw [if_pos hh]
    simp [hh]
  · rw [if_neg hh]
    have hh' : hasToonHeader (jsTrim raw) = false := by
      cases hb : hasToonHeader (jsTrim raw)
      · rfl
      · exact absurd hb hh
    rcases hj : jp (stripFence (jsTrim raw)) with _ | j
    · simp [hj, hh']
    · simp [hj, hh']

/-- C4: the parsing pipeline is total — every function of the embedding is a
total Lean function, so no input can make it throw — and degraded inputs
degrade gracefully: the empty response yields the default aggregate, and a
section body made solely of blank and `#`-comment lines yields an empty list
(the default `detected := false` record for mixing, `none` for content). -/
theorem toon_totality (owc : Option Nat) (ls : List String)
    (h : ∀ l ∈ ls, jsTrim l = "" ∨ jsStartsWith (jsTrim l) "#" = true) :
    parseUnifiedToon "" owc = emptyUnifiedResponse ∧
    parseSpellingLines ls = [] ∧
    parseToneLines ls = [] ∧
    parseStyleLines ls = [] ∧
    parseEuphonyLines ls = [] ∧
    parsePunctuationLines ls = [] ∧
    parseMixingLines ls =
      { detected := false, recommendedStyle := none, reason := none,
        corrections := none } ∧
    parseContentLines ls = none := by
  refine ⟨parseUnifiedToon_empty owc, ?_, ?_, ?_, ?_,
    parsePunctuationLines_skip ls h, parseMixingLines_skip ls h,
    parseContentLines_skip ls h⟩
  · exact List.filterMap_eq_nil_iff.mpr (fun a ha => parseSpellingLine_skip a (h a ha))
  · show (ls.filterMap parseToneLine).take 30 = []
    rw [List.filterMap_eq_nil_iff.mpr (fun a ha => parseToneLine_skip a (h a ha))]
    rfl
  · show (ls.filterMap parseStyleLine).take 30 = []
    rw [List.filterMap_eq_nil_iff.mpr (fun a ha => parseStyleLine_skip a (h a ha))]
    rfl
  · show (ls.filterMap parseEuphonyLine).take 10 = []
    rw [List.filterMap_eq_nil_iff.mpr (fun a ha => parseEuphonyLine_skip a (h a ha))]
    rfl

/-- C4 witness: the totality theorem applied to a concrete comment-and-blank
section body. -/
theorem toon_totality_witness :
    parseUnifiedToon "" none = emptyUnifiedResponse ∧
    parseSpellingLines ["", "  ", "# মন্তব্য"] = [] ∧
    parseToneLines ["", "  ", "# মন্তব্য"] = [] ∧
    parseStyleLines ["", "  ", "# মন্তব্য"] = [] ∧
    parseEuphonyLines ["", "  ", "# মন্তব্য"] = [] ∧
    parsePunctuationLines ["", "  ", "# মন্তব্য"] = [] ∧
    parseMixingLines ["", "  ", "# মন্তব্য"] =
      { detected := false, recommendedStyle := none, reason := none,
        corrections := none } ∧
    parseContentLines ["", "  ", "# মন্তব্য"] = none :=
  toon_totality none ["", "  ", "# মন্তব্য"] (by decide)

/-- C6: every spelling entry surviving `parseUnifiedToon` has a trimmed
`wrong` that is neither purely ASCII digits nor purely Latin letters, has
length at least 2, and carries a non-empty suggestions list. -/
theorem toon_spelling_filters (raw : String) (owc : Option Nat) (e : Correction)
    (h : e ∈ (parseUnifiedToon raw owc).spellingErrors) :
    isAllAsciiDigits (jsTrim e.wrong) = false ∧
    isAllLatinLetters (jsTrim e.wrong) = false ∧
    2 ≤ (jsTrim e.wrong).length ∧
    e.suggestions ≠ [] := by
  rw [parseUnifiedToon_spellingErrors] at h
  have hv := mem_validateSpellingErrors _ _ _ h
  simp only [spellingEntryValid] at hv
  split_ifs at hv with h1 h2 h3 h4
  refine ⟨by simpa using h2, by simpa using h3, ?_, ?_⟩
  · rcases Nat.lt_or_ge (jsTrim e.wrong).length 2 with hlt | hge
    · exact absurd (by simp [hlt]) h1
    · exact hge
  · intro hnil
    exact h4 (by simp [hnil])

/-- C6 witness: the filter theorem applied to the single entry produced by a
concrete SPELLING section. -/
theorem toon_spelling_filters_witness :
    isAllAsciiDigits (jsTrim "ভুল") = false ∧
    isAllLatinLetters (jsTrim "ভুল") = false ∧
    2 ≤ (jsTrim "ভুল").length ∧
    (["ঠিক"] : List String) ≠ [] := by
  have h := toon_spelling_filters "@SPELLING\nভুল|ঠিক|1" none
    { wrong := "ভুল", suggestions := ["ঠিক"], position := 1 } (by decide)
  exact h

/-- C1 counterexample: with a supplied word count of `0` the claimed bound is
`min(50, ceil(0 * 0.5)) = 0`, yet the parser keeps a spelling error — JS
treats a supplied `0` as falsy and applies the flat cap of 50 instead. -/
theorem toon_spelling_cap_cex :
    (parseUnifiedToon "@SPELLING\nভুল|ঠিক|1" (some 0)).spellingErrors.length = 1 ∧
    min 50 ((0 + 1) / 2) = 0 := by
  constructor
  · decide
  · rfl

/-- C1 (amended): the spelling collection of every aggregate produced by
`parseUnifiedToon`, and of every non-null aggregate produced by
`parseAIResponse` (both the TOON path and the JSON fallback), has length at
most `min(50, ceil(wordCount * 0.5))` when a **nonzero** word count is
supplied; when the word count is absent — or supplied as `0`, which is falsy
in JS — the cap is the flat 50. -/
theorem toon_spelling_cap (raw : String) (owc : Option Nat) :
    (parseUnifiedToon raw owc).spellingErrors.length ≤ maxErrorsFor owc ∧
    (∀ wc : Nat, wc ≠ 0 → maxErrorsFor (some wc) = min 50 ((wc + 1) / 2)) ∧
    maxErrorsFor none = 50 ∧ maxErrorsFor (some 0) = 50 ∧
    (∀ (jp : String → Option JsonShape) (r : UnifiedResponse),
      parseAIResponse jp raw owc = some r →
      r.spellingErrors.length ≤ maxErrorsFor owc) := by
  refine ⟨?_, ?_, rfl, rfl, ?_⟩
  · rw [parseUnifiedToon_spellingErrors]
    exact length_validateSpellingErrors_le _ _
  · intro wc hwc
    simp [maxErrorsFor, hwc]
  · intro jp r hr
    simp only [parseAIResponse] at hr
    by_cases hh : hasToonHeader (jsTrim raw) = true
    · rw [if_pos hh] at hr
      injection hr with hr
      rw [← hr, parseUnifiedToon_spellingErrors]
      exact length_validateSpellingErrors_le _ _
    · rw [if_neg hh] at hr
      rcases hj : jp (stripFence (jsTrim raw)) with _ | j
      · rw [hj] at hr
        exact absurd hr (by simp)
      · rw [hj] at hr
        simp only [Option.some.injEq] at hr
        rw [← hr]
        exact length_validateSpellingErrors_le _ _

/-- C1 witness: the amended cap theorem applied at a concrete response and a
concrete nonzero word count, on both parsing paths. -/
theorem toon_spelling_cap_witness :
    maxErrorsFor (some 4) = min 50 ((4 + 1) / 2) ∧
    (parseUnifiedToon "@SPELLING\nভুল|ঠিক|1" (some 4)).spellingErrors.length ≤
      maxErrorsFor (some 4) :=
  ⟨(toon_spelling_cap "@SPELLING\nভুল|ঠিক|1" (some 4)).2.1 4 (by decide),
   (toon_spelling_cap "@SPELLING\nভুল|ঠিক|1" (some 4)).2.2.2.2
     (fun _ => none) (parseUnifiedToon "@SPELLING\nভুল|ঠিক|1" (some 4))
     (by decide)⟩

theorem mixingRemove_collapse (target : String) (m : StyleMixing)
    (l : List StyleMixingCorrection) (hm : m.corrections = some l)
    (hf : l.filter (fun c => appNormalize c.current ≠ target) = []) :
    mixingRemove target (some m) = none := by
  show (match m.corrections with
    | none => some m
    | some l =>
      let filtered := l.filter (fun c => appNormalize c.current ≠ target)
      if 0 < filtered.length then some { m with corrections := some filtered }
      else none) = none
  rw [hm]
  show (if 0 < (l.filter (fun c => appNormalize c.current ≠ target)).length
      then some { m with
        corrections := some (l.filter (fun c => appNormalize c.current ≠ target)) }
      else none) = none
  rw [hf]
  rfl

/-- C9: the mixing report of every aggregate produced by `parseUnifiedToon`
carries its `corrections` field only when the list is non-empty, and removing
the last remaining correction — by dismiss or by a successful accept —
collapses the whole report to the absent (`null`) state instead of leaving an
empty corrections list. -/
theorem mixing_collapse :
    (∀ (raw : String) (owc : Option Nat) (l : List StyleMixingCorrection),
      (parseUnifiedToon raw owc).languageStyleMixing.corrections = some l →
      l ≠ []) ∧
    (∀ (st : AppState) (txt : String) (m : StyleMixing)
        (l : List StyleMixingCorrection),
      st.languageStyleMixing = some m → m.corrections = some l →
      l.filter (fun c => appNormalize c.current ≠ appNormalize txt) = [] →
      (dismissSuggestion .mixing txt st).languageStyleMixing = none) ∧
    (∀ (st : AppState) (old : String) (m : StyleMixing)
        (l : List StyleMixingCorrection),
      st.languageStyleMixing = some m → m.corrections = some l →
      l.filter (fun c => appNormalize c.current ≠ appNormalize (jsTrim old)) = [] →
      (handleReplace true old st).languageStyleMixing = none) := by
  refine ⟨parseUnifiedToon_mixing_corrections_ne_nil, ?_, ?_⟩
  · intro st txt m l hst hm hf
    show mixingRemove (appNormalize txt) st.languageStyleMixing = none
    rw [hst]
    exact mixingRemove_collapse _ m l hm hf
  · intro st old m l hst hm hf
    show mixingRemove (appNormalize (jsTrim old)) st.languageStyleMixing = none
    rw [hst]
    exact mixingRemove_collapse _ m l hm hf

/-- C9 witness: the collapse theorem applied to a concrete parsed report and
a concrete one-correction state dismissed/accepted at its only key. -/
theorem mixing_collapse_witness :
    ([{ current := "কক", suggestion := "খখ", type := "ত", position := 1 }] :
        List StyleMixingCorrection) ≠ [] ∧
    (dismissSuggestion .mixing "কক"
      { corrections := [], toneSuggestions := [], styleSuggestions := [],
        languageStyleMixing := some
          { detected := true, recommendedStyle := none, reason := none,
            corrections := some
              [{ current := "কক", suggestion := "খখ", type := "ত", position := 1 }] },
        punctuationIssues := [], euphonyImprovements := [] }).languageStyleMixing
      = none ∧
    (handleReplace true "কক"
      { corrections := [], toneSuggestions := [], styleSuggestions := [],
        languageStyleMixing := some
          { detected := true, recommendedStyle := none, reason := none,
            corrections := some
              [{ current := "কক", suggestion := "খখ", type := "ত", position := 1 }] },
        punctuationIssues := [], euphonyImprovements := [] }).languageStyleMixing
      = none :=
  ⟨mixing_collapse.1 "@MIXING\ndetected:true\nCORRECTIONS\nকক|খখ|ত|1" none
      [{ current := "কক", suggestion := "খখ", type := "ত", position := 1 }]
      (by decide),
   mixing_collapse.2.1 _ "কক"
      { detected := true, recommendedStyle := none, reason := none,
        corrections := some
          [{ current := "কক", suggestion := "খখ", type := "ত", position := 1 }] }
      [{ current := "কক", suggestion := "খখ", type := "ত", position := 1 }]
      rfl rfl (by decide),
   mixing_collapse.2.2 _ "কক"
      { detected := true, recommendedStyle := none, reason := none,
        corrections := some
          [{ current := "কক", suggestion := "খখ", type := "ত", position := 1 }] }
      [{ current := "কক", suggestion := "খখ", type := "ত", position := 1 }]
      rfl rfl (by decide)⟩

/-- C2 counterexample: the punctuation collection is NOT deduplicated — a
response repeating the same punctuation record twice yields two entries whose
primary keys (`currentSentence`, and indeed the whole records) are equal. -/
theorem toon_dedup_cex :
    (parseUnifiedToon "@PUNCTUATION\nissue:ক\ncur:খখ\n---\nissue:ক\ncur:খখ"
        none).punctuationIssues.length = 2 ∧
    (parseUnifiedToon "@PUNCTUATION\nissue:ক\ncur:খখ\n---\nissue:ক\ncur:খখ"
        none).punctuationIssues.getD 0 default =
      (parseUnifiedToon "@PUNCTUATION\nissue:ক\ncur:খখ\n---\nissue:ক\ncur:খখ"
        none).punctuationIssues.getD 1 default := by
  constructor <;> decide

/-- C2 (amended): in every aggregate produced by `parseUnifiedToon` the
spelling, tone, style, euphony and mixing-correction collections (but not the
punctuation collection) are deduplicated on the normalized primary key; the
deduplication pass keeps the first occurrence of each key and preserves the
relative emission order of the kept entries. -/
theorem toon_dedup :
    (∀ (raw : String) (owc : Option Nat),
      (parseUnifiedToon raw owc).spellingErrors.Pairwise
        (fun a b => normalizeText a.wrong ≠ normalizeText b.wrong) ∧
      (parseUnifiedToon raw owc).toneConversions.Pairwise
        (fun a b => normalizeText a.current ≠ normalizeText b.current) ∧
      (parseUnifiedToon raw owc).styleConversions.Pairwise
        (fun a b => normalizeText a.current ≠ normalizeText b.current) ∧
      (parseUnifiedToon raw owc).euphonyImprovements.Pairwise
        (fun a b => normalizeText a.current ≠ normalizeText b.current) ∧
      (∀ l, (parseUnifiedToon raw owc).languageStyleMixing.corrections = some l →
        l.Pairwise (fun a b => normalizeText a.current ≠ normalizeText b.current))) ∧
    (∀ (α : Type) (arr : List α) (kf : α → String),
      (removeDuplicates arr kf).Sublist arr) ∧
    (∀ (α : Type) (arr : List α) (kf : α → String) (x : α),
      x ∈ removeDuplicates arr kf →
      ∃ pre post, arr = pre ++ x :: post ∧
        ∀ z ∈ pre, normalizeText (kf z) ≠ normalizeText (kf x)) ∧
    (∀ (α : Type) (arr : List α) (kf : α → String) (x : α), x ∈ arr →
      ∃ y ∈ removeDuplicates arr kf,
        normalizeText (kf y) = normalizeText (kf x)) := by
  refine ⟨?_, fun α arr kf => removeDuplicates_sublist arr kf,
    fun α arr kf x hx => mem_removeDuplicates_first arr kf x hx,
    fun α arr kf x hx => removeDuplicates_complete arr kf x hx⟩
  intro raw owc
  refine ⟨?_, ?_, ?_, ?_, ?_⟩
  · rw [parseUnifiedToon_spellingErrors]
    exact List.Pairwise.sublist (validateSpellingErrors_sublist _ _)
      (pairwise_removeDuplicates _ _)
  · rw [parseUnifiedToon_toneConversions]
    exact pairwise_removeDuplicates _ _
  · rw [parseUnifiedToon_styleConversions]
    exact pairwise_removeDuplicates _ _
  · rw [parseUnifiedToon_euphonyImprovements]
    exact pairwise_removeDuplicates _ _
  · intro l hl
    rw [parseUnifiedToon_mixing] at hl
    rcases hc : (toonFold raw).languageStyleMixing.corrections with _ | l'
    · rw [hc] at hl
      rw [hc] at hl
      exact absurd hl (by simp)
    · rw [hc] at hl
      simp only [StyleMixing.corrections, Option.some.injEq] at hl
      rw [← hl]
      exact pairwise_removeDuplicates _ _

/-- C2 witness: the deduplication theorem applied to a concrete parsed mixing
report and to concrete lists exercising the first-occurrence and
completeness clauses. -/
theorem toon_dedup_witness :
    ([{ current := "কক", suggestion := "খখ", type := "ত", position := 1 }] :
        List StyleMixingCorrection).Pairwise
      (fun a b => normalizeText a.current ≠ normalizeText b.current) ∧
    (∃ pre post, (["ক", "ক "] : List String) = pre ++ "ক" :: post ∧
      ∀ z ∈ pre, normalizeText z ≠ normalizeText "ক") ∧
    (∃ y ∈ removeDuplicates ["ক", "ক "] (fun s => s),
      normalizeText y = normalizeText "ক ") :=
  ⟨(toon_dedup.1 "@MIXING\ndetected:true\nCORRECTIONS\nকক|খখ|ত|1" none).2.2.2.2
      [{ current := "কক", suggestion := "খখ", type := "ত", position := 1 }]
      (by decide),
   toon_dedup.2.2.1 String ["ক", "ক "] (fun s => s) "ক" (by decide),
   toon_dedup.2.2.2 String ["ক", "ক "] (fun s => s) "ক " (by decide)⟩

theorem mem_mixingRemove (target : String) (o : Option StyleMixing)
    (c : StyleMixingCorrection) :
    (∃ m l, mixingRemove target o = some m ∧ m.corrections = some l ∧ c ∈ l) ↔
    (∃ m l, o = some m ∧ m.corrections = some l ∧ c ∈ l ∧
      appNormalize c.current ≠ target) := by
  rcases o with _ | m
  · simp [mixingRemove]
  · rcases hc : m.corrections with _ | l
    · simp [mixingRemove, hc]
    · have hbody : mixingRemove target (some m) =
          (if 0 < (l.filter (fun x => appNormalize x.current ≠ target)).length
           then some { m with
             corrections := some (l.filter (fun x => appNormalize x.current ≠ target)) }
           else none) := by
        have h0 : mixingRemove target (some m) =
            (match m.corrections with
              | none => some m
              | some l =>
                let filtered := l.filter (fun x => appNormalize x.current ≠ target)
                if 0 < filtered.length then
                  some { m with corrections := some filtered }
                else none) := rfl
        rw [h0, hc]
      by_cases hl : 0 < (l.filter (fun x => appNormalize x.current ≠ target)).length
      · rw [hbody, if_pos hl]
        constructor
        · rintro ⟨m', l', hm', hl', hcl⟩
          simp only [Option.some.injEq] at hm'
          rw [← hm'] at hl'
          simp only [StyleMixing.corrections, Option.some.injEq] at hl'
          rw [← hl'] at hcl
          have := List.mem_filter.mp hcl
          exact ⟨m, l, rfl, hc, this.1, by simpa using this.2⟩
        · rintro ⟨m', l', hm', hl', hcl, hne⟩
          simp only [Option.some.injEq] at hm'
          rw [← hm'] at hl'
          rw [hc] at hl'
          simp only [Option.some.injEq] at hl'
          refine ⟨_, l.filter (fun x => appNormalize x.current ≠ target), rfl, rfl, ?_⟩
          exact List.mem_filter.mpr ⟨hl' ▸ hcl, by simpa using hne⟩
      · rw [hbody, if_neg hl]
        constructor
        · rintro ⟨m', l', hm', _, _⟩
          exact absurd hm' (by simp)
        · rintro ⟨m', l', hm', hl', hcl, hne⟩
          simp only [Option.some.injEq] at hm'
          rw [← hm'] at hl'
          rw [hc] at hl'
          simp only [Option.some.injEq] at hl'
          have hmem : c ∈ l.filter (fun x => appNormalize x.current ≠ target) :=
            List.mem_filter.mpr ⟨hl' ▸ hcl, by simpa using hne⟩
          exact absurd (List.length_pos.mpr (List.ne_nil_of_mem hmem)) hl

/-- C7: when the external document replacement fails, `handleReplace` leaves
the state untouched; when it succeeds, an entry survives a collection exactly
when its normalized primary key differs from the normalized accepted text —
so a matched key is removed from spelling, tone, style, euphony, punctuation
and the mixing corrections simultaneously. -/
theorem app_accept_reconcile (old : String) (st : AppState) :
    handleReplace false old st = st ∧
    (∀ c : Correction, c ∈ (handleReplace true old st).corrections ↔
      c ∈ st.corrections ∧ appNormalize c.wrong ≠ appNormalize (jsTrim old)) ∧
    (∀ t : ToneSuggestion, t ∈ (handleReplace true old st).toneSuggestions ↔
      t ∈ st.toneSuggestions ∧ appNormalize t.current ≠ appNormalize (jsTrim old)) ∧
    (∀ s : StyleSuggestion, s ∈ (handleReplace true old st).styleSuggestions ↔
      s ∈ st.styleSuggestions ∧ appNormalize s.current ≠ appNormalize (jsTrim old)) ∧
    (∀ e : EuphonyImprovement,
      e ∈ (handleReplace true old st).euphonyImprovements ↔
      e ∈ st.euphonyImprovements ∧
        appNormalize e.current ≠ appNormalize (jsTrim old)) ∧
    (∀ p : PunctuationIssue, p ∈ (handleReplace true old st).punctuationIssues ↔
      p ∈ st.punctuationIssues ∧
        appNormalize p.currentSentence ≠ appNormalize (jsTrim old)) ∧
    (∀ c : StyleMixingCorrection,
      (∃ m l, (handleReplace true old st).languageStyleMixing = some m ∧
        m.corrections = some l ∧ c ∈ l) ↔
      (∃ m l, st.languageStyleMixing = some m ∧ m.corrections = some l ∧
        c ∈ l ∧ appNormalize c.current ≠ appNormalize (jsTrim old))) := by
  refine ⟨rfl, ?_, ?_, ?_, ?_, ?_, ?_⟩
  · intro c
    show c ∈ st.corrections.filter _ ↔ _
    rw [List.mem_filter]
    simp
  · intro t
    show t ∈ st.toneSuggestions.filter _ ↔ _
    rw [List.mem_filter]
    simp
  · intro s
    show s ∈ st.styleSuggestions.filter _ ↔ _
    rw [List.mem_filter]
    simp
  · intro e
    show e ∈ st.euphonyImprovements.filter _ ↔ _
    rw [List.mem_filter]
    simp
  · intro p
    show p ∈ st.punctuationIssues.filter _ ↔ _
    rw [List.mem_filter]
    simp
  · intro c
    exact mem_mixingRemove (appNormalize (jsTrim old)) st.languageStyleMixing c

/-- C8: `dismissSuggestion` removes normalized matches only from the
collection of the one specified category; every other collection of the state
is exactly unchanged — no cascade across categories. -/
theorem app_dismiss_frame (txt : String) (st : AppState) :
    ((dismissSuggestion .spelling txt st).corrections =
        st.corrections.filter (fun c => appNormalize c.wrong ≠ appNormalize txt) ∧
      (dismissSuggestion .spelling txt st).toneSuggestions = st.toneSuggestions ∧
      (dismissSuggestion .spelling txt st).styleSuggestions = st.styleSuggestions ∧
      (dismissSuggestion .spelling txt st).languageStyleMixing = st.languageStyleMixing ∧
      (dismissSuggestion .spelling txt st).punctuationIssues = st.punctuationIssues ∧
      (dismissSuggestion .spelling txt st).euphonyImprovements = st.euphonyImprovements) ∧
    ((dismissSuggestion .tone txt st).toneSuggestions =
        st.toneSuggestions.filter (fun t => appNormalize t.current ≠ appNormalize txt) ∧
      (dismissSuggestion .tone txt st).corrections = st.corrections ∧
      (dismissSuggestion .tone txt st).styleSuggestions = st.styleSuggestions ∧
      (dismissSuggestion .tone txt st).languageStyleMixing = st.languageStyleMixing ∧
      (dismissSuggestion .tone txt st).punctuationIssues = st.punctuationIssues ∧
      (dismissSuggestion .tone txt st).euphonyImprovements = st.euphonyImprovements) ∧
    ((dismissSuggestion .style txt st).styleSuggestions =
        st.styleSuggestions.filter (fun s => appNormalize s.current ≠ appNormalize txt) ∧
      (dismissSuggestion .style txt st).corrections = st.corrections ∧
      (dismissSuggestion .style txt st).toneSuggestions = st.toneSuggestions ∧
      (dismissSuggestion .style txt st).languageStyleMixing = st.languageStyleMixing ∧
      (dismissSuggestion .style txt st).punctuationIssues = st.punctuationIssues ∧
      (dismissSuggestion .style txt st).euphonyImprovements = st.euphonyImprovements) ∧
    ((dismissSuggestion .mixing txt st).languageStyleMixing =
        mixingRemove (appNormalize txt) st.languageStyleMixing ∧
      (dismissSuggestion .mixing txt st).corrections = st.corrections ∧
      (dismissSuggestion .mixing txt st).toneSuggestions = st.toneSuggestions ∧
      (dismissSuggestion .mixing txt st).styleSuggestions = st.styleSuggestions ∧
      (dismissSuggestion .mixing txt st).punctuationIssues = st.punctuationIssues ∧
      (dismissSuggestion .mixing txt st).euphonyImprovements = st.euphonyImprovements) ∧
    ((dismissSuggestion .punct txt st).punctuationIssues =
        st.punctuationIssues.filter
          (fun p => appNormalize p.currentSentence ≠ appNormalize txt) ∧
      (dismissSuggestion .punct txt st).corrections = st.corrections ∧
      (dismissSuggestion .punct txt st).toneSuggestions = st.toneSuggestions ∧
      (dismissSuggestion .punct txt st).styleSuggestions = st.styleSuggestions ∧
      (dismissSuggestion .punct txt st).languageStyleMixing = st.languageStyleMixing ∧
      (dismissSuggestion .punct txt st).euphonyImprovements = st.euphonyImprovements) ∧
    ((dismissSuggestion .euphony txt st).euphonyImprovements =
        st.euphonyImprovements.filter
          (fun e => appNormalize e.current ≠ appNormalize txt) ∧
      (dismissSuggestion .euphony txt st).corrections = st.corrections ∧
      (dismissSuggestion .euphony txt st).toneSuggestions = st.toneSuggestions ∧
      (dismissSuggestion .euphony txt st).styleSuggestions = st.styleSuggestions ∧
      (dismissSuggestion .euphony txt st).languageStyleMixing = st.languageStyleMixing ∧
      (dismissSuggestion .euphony txt st).punctuationIssues = st.punctuationIssues) :=
  ⟨⟨rfl, rfl, rfl, rfl, rfl, rfl⟩, ⟨rfl, rfl, rfl, rfl, rfl, rfl⟩,
   ⟨rfl, rfl, rfl, rfl, rfl, rfl⟩, ⟨rfl, rfl, rfl, rfl, rfl, rfl⟩,
   ⟨rfl, rfl, rfl, rfl, rfl, rfl⟩, ⟨rfl, rfl, rfl, rfl, rfl, rfl⟩⟩

theorem parseSpellingLine_accepts (l : String) (h : parseSpellingLine l ≠ none) :
    jsContainsChar (jsTrim l) '|' = true ∧
    3 ≤ (splitFields (jsTrim l)).length := by
  simp only [parseSpellingLine] at h
  split at h
  · exact absurd rfl h
  · next hc1 =>
    split at h
    · next hc2 =>
      refine ⟨?_, hc2.1⟩
      by_contra hb
      have hfalse : jsContainsChar (jsTrim l) '|' = false := by
        cases hx : jsContainsChar (jsTrim l) '|'
        · rfl
        · exact absurd hx hb
      exact hc1 (by simp [hfalse])
    · exact absurd rfl h

theorem parseToneLine_accepts (l : String) (h : parseToneLine l ≠ none) :
    jsContainsChar (jsTrim l) '|' = true ∧
    4 ≤ (splitFields (jsTrim l)).length := by
  simp only [parseToneLine] at h
  split at h
  · exact absurd rfl h
  · next hc1 =>
    split at h
    · next hc2 =>
      refine ⟨?_, hc2.1⟩
      by_contra hb
      have hfalse : jsContainsChar (jsTrim l) '|' = false := by
        cases hx : jsContainsChar (jsTrim l) '|'
        · rfl
        · exact absurd hx hb
      exact hc1 (by simp [hfalse])
    · exact absurd rfl h

theorem parseStyleLine_accepts (l : String) (h : parseStyleLine l ≠ none) :
    jsContainsChar (jsTrim l) '|' = true ∧
    4 ≤ (splitFields (jsTrim l)).length := by
  simp only [parseStyleLine] at h
  split at h
  · exact absurd rfl h
  · next hc1 =>
    split at h
    · next hc2 =>
      refine ⟨?_, hc2.1⟩
      by_contra hb
      have hfalse : jsContainsChar (jsTrim l) '|' = false := by
        cases hx : jsContainsChar (jsTrim l) '|'
        · rfl
        · exact absurd hx hb
      exact hc1 (by simp [hfalse])
    · exact absurd rfl h

theorem parseEuphonyLine_accepts (l : String) (h : parseEuphonyLine l ≠ none) :
    jsContainsChar (jsTrim l) '|' = true ∧
    3 ≤ (splitFields (jsTrim l)).length := by
  simp only [parseEuphonyLine] at h
  split at h
  · exact absurd rfl h
  · split at h
    · next hc1 =>
      exact absurd rfl h
    · next hc1 =>
      split at h
      · next hc2 =>
        refine ⟨?_, hc2.1⟩
        cases hx : jsContainsChar (jsTrim l) '|'
        · exact absurd (by simp [hx]) hc1
        · rfl
      · exact absurd rfl h

theorem mixingStep_accepts (st : MixAcc) (l : String)
    (h : (mixingStep st l).corrections ≠ st.corrections) :
    jsContainsChar (jsTrim l) '|' = true ∧
    4 ≤ (splitFields (jsTrim l)).length := by
  simp only [mixingStep] at h
  split at h
  · exact absurd rfl h
  · split at h
    · exact absurd rfl h
    · split at h
      · next hguard =>
        split at h
        · next hc2 =>
          simp only [Bool.and_eq_true] at hguard
          exact ⟨hguard.2, hc2.1⟩
        · exact absurd rfl h
      · split at h
        · split at h
          · exact absurd rfl h
          · split at h
            · exact absurd rfl h
            · split at h
              · exact absurd rfl h
              · split at h
                · exact absurd rfl h
                · exact absurd rfl h
        · exact absurd rfl h

/-- C5 counterexample: a euphony body line with only 3 pipe-separated fields
is accepted (the source requires `parts.length >= 3` for euphony, not 4). -/
theorem toon_line_acceptance_cex :
    (parseEuphonyLines ["কক|খখ|গগ"]).length = 1 ∧
    (splitFields (jsTrim "কক|খখ|গগ")).length = 3 := by
  constructor <;> rfl

/-- C5 (amended): a Strategy-A body line contributes a record only if it
contains the pipe character and splits into at least the minimum field count
for its category — 3 fields for spelling AND for euphony, 4 fields for tone,
style and mixing corrections — and a line failing these conditions
contributes no record; for the stateless parsers deleting such a line leaves
the other lines' records unchanged. -/
theorem toon_line_acceptance :
    (∀ l, parseSpellingLine l ≠ none →
      jsContainsChar (jsTrim l) '|' = true ∧
      3 ≤ (splitFields (jsTrim l)).length) ∧
    (∀ l, parseToneLine l ≠ none →
      jsContainsChar (jsTrim l) '|' = true ∧
      4 ≤ (splitFields (jsTrim l)).length) ∧
    (∀ l, parseStyleLine l ≠ none →
      jsContainsChar (jsTrim l) '|' = true ∧
      4 ≤ (splitFields (jsTrim l)).length) ∧
    (∀ l, parseEuphonyLine l ≠ none →
      jsContainsChar (jsTrim l) '|' = true ∧
      3 ≤ (splitFields (jsTrim l)).length) ∧
    (∀ (st : MixAcc) l, (mixingStep st l).corrections ≠ st.corrections →
      jsContainsChar (jsTrim l) '|' = true ∧
      4 ≤ (splitFields (jsTrim l)).length) ∧
    (∀ pre post l, parseSpellingLine l = none →
      parseSpellingLines (pre ++ l :: post) = parseSpellingLines (pre ++ post)) ∧
    (∀ pre post l, parseToneLine l = none →
      parseToneLines (pre ++ l :: post) = parseToneLines (pre ++ post)) ∧
    (∀ pre post l, parseStyleLine l = none →
      parseStyleLines (pre ++ l :: post) = parseStyleLines (pre ++ post)) ∧
    (∀ pre post l, parseEuphonyLine l = none →
      parseEuphonyLines (pre ++ l :: post) = parseEuphonyLines (pre ++ post)) := by
  refine ⟨parseSpellingLine_accepts, parseToneLine_accepts, parseStyleLine_accepts,
    parseEuphonyLine_accepts, mixingStep_accepts, ?_, ?_, ?_, ?_⟩
  · intro pre post l h
    simp [parseSpellingLines, List.filterMap_append, List.filterMap_cons, h]
  · intro pre post l h
    simp [parseToneLines, List.filterMap_append, List.filterMap_cons, h]
  · intro pre post l h
    simp [parseStyleLines, List.filterMap_append, List.filterMap_cons, h]
  · intro pre post l h
    simp [parseEuphonyLines, List.filterMap_append, List.filterMap_cons, h]

/-- C5 witness: the acceptance theorem applied to concrete accepted lines of
each category and to the deletion of a concrete pipe-free line. -/
theorem toon_line_acceptance_witness :
    (jsContainsChar (jsTrim "কক|খখ|1") '|' = true ∧
      3 ≤ (splitFields (jsTrim "কক|খখ|1")).length) ∧
    (jsContainsChar (jsTrim "কক|খখ|গগ|1") '|' = true ∧
      4 ≤ (splitFields (jsTrim "কক|খখ|গগ|1")).length) ∧
    parseSpellingLines ["আবোল তাবোল", "কক|খখ|1"] = parseSpellingLines ["কক|খখ|1"] :=
  ⟨toon_line_acceptance.1 "কক|খখ|1" (by decide),
   toon_line_acceptance.2.1 "কক|খখ|গগ|1" (by decide),
   toon_line_acceptance.2.2.2.2.2.1 [] ["কক|খখ|1"] "আবোল তাবোল" (by decide)⟩
